import Mathlib

/-!
Verification of the `go-huggingface` caching download orchestrator.

The Go sources are embedded shallowly:

* Strings handled character-by-character (the path sanitizer) are modeled as
  `List Char`; opaque path/URL strings elsewhere are Lean `String`s.
* Go standard-library path functions (`path.Clean`, `path.Join`, `path.Dir`,
  `path.Split`) are modeled from their documented lexical semantics, since the
  repository calls them but does not define them.
* Filesystem state is a map `String → Option String` from path to content.
  Fallible OS and network operations (mkdir, create, transfer, close, rename,
  stat) are driven by an explicit environment oracle, and `os.Stat` hard
  failures are surfaced as a distinguished `panicked` outcome, mirroring the
  `panic(err)` in `fileExists`.
-/

namespace GoHuggingface

/-! ## Path strings as lists of characters (hub: `cleanRelativeFilePath`) -/

abbrev GoStr := List Char

/-- The one-character component `"."`. -/
def dotOne : GoStr := ['.']

/-- The component `".."`. -/
def dotTwo : GoStr := ['.', '.']

/-- `strings.Split(s, "/")`: split on every slash, keeping empty fields. -/
def splitOnSlash : GoStr → List GoStr
  | [] => [[]]
  | c :: cs =>
    if c = '/' then [] :: splitOnSlash cs
    else
      match splitOnSlash cs with
      | [] => [[c]]
      | w :: ws => (c :: w) :: ws

/-- Join words with a single slash between them (no cleaning). -/
def joinSlash : List GoStr → GoStr
  | [] => []
  | [w] => w
  | w :: ws => w ++ '/' :: joinSlash ws

/-- Go `path.IsAbs`: a path is absolute when it starts with `/`. -/
def goIsAbs (s : GoStr) : Bool :=
  match s with
  | [] => false
  | c :: _ => c = '/'

/-- One step of Go `path.Clean`'s component processing, expressed as a stack
(top of stack first).  Empty and `"."` components are dropped; `".."` pops a
preceding normal component, is dropped at the root of a rooted path, and is
kept when nothing can be popped in a relative path; other components are
pushed. -/
def cleanStep (rooted : Bool) (stack : List GoStr) (comp : GoStr) : List GoStr :=
  if comp = [] ∨ comp = dotOne then stack
  else if comp = dotTwo then
    match stack with
    | [] => if rooted then [] else [dotTwo]
    | top :: rest => if top = dotTwo then dotTwo :: top :: rest else rest
  else comp :: stack

/-- Go `path.Clean`, modeled from its documented lexical algorithm: iteratively
eliminate `.` components, `..` components together with the preceding
component, repeated slashes, and trailing slashes; return `"."` for an empty
result and keep a leading slash of a rooted path. -/
def goPathClean (s : GoStr) : GoStr :=
  if s = [] then dotOne
  else
    let rooted : Bool := goIsAbs s
    let stack := (splitOnSlash s).foldl (cleanStep rooted) []
    let body := joinSlash stack.reverse
    if rooted then '/' :: body
    else if body = [] then dotOne else body

/-- Go `path.Join`: returns `""` when every element is empty, otherwise joins
the elements (ignoring leading empty ones) with slashes and cleans the
result. -/
def goPathJoin (elems : List GoStr) : GoStr :=
  if elems.all (fun w => w = []) then []
  else goPathClean (joinSlash (elems.dropWhile (fun w => w = [])))

/-- Embedding of `cleanRelativeFilePath` (hub package): split the repo file
name on `/`, clean the joined path, drop empty and `..` components, and rejoin;
an empty remainder collapses to `"."`.  `filepath.ToSlash` is the identity on
Linux and is omitted. -/
def cleanRelativeFilePath (repoFileName : GoStr) : GoStr :=
  let parts := splitOnSlash repoFileName
  let p := goPathClean (goPathJoin parts)
  let parts2 := (splitOnSlash p).filter (fun s => ¬(s = [] ∨ s = dotTwo))
  if parts2 = [] then dotOne else goPathJoin parts2

/-! ## Resizable semaphore (`downloader` package, `Semaphore`) -/

/-- The mutable fields of `Semaphore`; machine `int`s are modeled as `Int`. -/
structure Semaphore where
  capacity : Int
  current : Int
deriving DecidableEq, Repr

namespace Semaphore

/-- The admission test from `Acquire`'s loop body:
`s.capacity <= 0 || s.current < s.capacity`. -/
def acquireReady (s : Semaphore) : Bool :=
  decide (s.capacity ≤ 0 ∨ s.current < s.capacity)

/-- `Acquire`, as one admission attempt: when the admission test holds the
caller is admitted (`current++`); otherwise it waits (`none`). -/
def acquire (s : Semaphore) : Option Semaphore :=
  if acquireReady s then some { s with current := s.current + 1 } else none

/-- `n` consecutive admitted `Acquire` calls with no intervening `Release`. -/
def acquireN : Nat → Semaphore → Option Semaphore
  | 0, s => some s
  | n + 1, s => (acquire s).bind (acquireN n)

/-- `Release`: `current--`, then signal one waiter unless
`capacity == 0 || current < capacity-1`.  The returned flag records whether a
signal was issued. -/
def release (s : Semaphore) : Semaphore × Bool :=
  let s1 : Semaphore := { s with current := s.current - 1 }
  if s1.capacity = 0 ∨ s1.current < s1.capacity - 1 then (s1, false)
  else (s1, true)

/-- `Resize`: no-op on an unchanged capacity; a shrink to a positive capacity
(or any change away from capacity 0) only stores the new capacity; every other
change stores it and broadcasts to all waiters.  The returned flag records
whether a broadcast was issued. -/
def resize (s : Semaphore) (newCapacity : Int) : Semaphore × Bool :=
  if newCapacity = s.capacity then (s, false)
  else if (0 < newCapacity ∧ newCapacity < s.capacity) ∨ s.capacity = 0 then
    ({ s with capacity := newCapacity }, false)
  else ({ s with capacity := newCapacity }, true)

end Semaphore

/-! ## Filesystem, environment and effect trace for the hub download code -/

/-- Filesystem contents: path to file content (directories are not tracked;
`MkdirAll` outcomes are environment-driven). -/
abbrev FS := String → Option String

/-- Write (create or truncate) a file. -/
def fsWrite (fs : FS) (p content : String) : FS :=
  fun q => if q = p then some content else fs q

/-- Remove a file if present. -/
def fsRemove (fs : FS) (p : String) : FS :=
  fun q => if q = p then none else fs q

/-- Create a file if absent (`os.OpenFile` with `O_CREATE`). -/
def fsEnsure (fs : FS) (p : String) : FS :=
  if (fs p).isSome then fs else fsWrite fs p ""

/-- A successful `os.Stat`, i.e. the path is present. -/
def fileExistsPure (fs : FS) (p : String) : Bool := (fs p).isSome

/-- Observable side effects, recorded in order. -/
inductive Effect where
  | removeE (p : String)
  | mkdirE (p : String)
  | createE (p : String)
  | transferE (url : String)
  | renameE (src dst : String)
  | symlinkE (dst src : String)
deriving DecidableEq, Repr

/-- The error values surfaced by the embedded hub functions. -/
inductive DlError where
  | removeFailed (p : String)
  | cancelled
  | mkdirFailed (p : String)
  | lockFailed (p : String)
  | createTempFailed (p : String)
  | transferFailed (url : String)
  | closeFailed (p : String)
  | renameFailed (src dst : String)
  | headFailed (url : String)
  | noETag (name : String)
  | redirectMismatch (name : String)
  | invalidFileName (name : String)
  | symlinkFailed (dst : String)
  | readInfoFailed (p : String)
  | parseInfoFailed (p : String)
deriving DecidableEq, Repr

/-- Outcome of running embedded Go code: a value, or termination by `panic`. -/
inductive Run (α : Type) where
  | ok (val : α)
  | panicked
deriving Repr

/-- `RepoInfo` (hub/info.go): the parsed repository-info JSON document.
The `siblings` list keeps only the `rfilename` field of each entry, and the
safetensors parameter map is an association list. -/
structure RepoInfo where
  id : String
  modelId : String
  author : String
  commitHash : String
  tags : List String
  siblings : List String
  safetensorsTotal : Int
  safetensorsParameters : List (String × Int)
deriving DecidableEq, Repr

/-- The `Repo` fields the embedded operations read or write (hub/repo.go). -/
structure Repo where
  id : String
  hfEndpoint : String
  repoType : String
  revision : String
  authToken : String
  maxParallelDownload : Int
  cacheDir : String
  info : Option RepoInfo
deriving DecidableEq, Repr

/-- Environment oracle fixing the outcome of every external operation: which
stat calls fail hard (neither success nor not-exist), whether the context is
cancelled, which mkdir/lock-open/create/close/rename/symlink calls succeed,
what each URL transfer and header probe returns, and how JSON parses. -/
structure DlEnv where
  statHardErr : String → Bool
  ctxCancelled : Bool
  mkdirOk : String → Bool
  lockOk : String → Bool
  createOk : String → Bool
  transfer : String → Option String
  truncatedContent : String → String
  closeOk : String → Bool
  renameOk : String → Bool
  readOk : String → Bool
  fetchHeader : String → Option (List (String × String) × Int)
  parseInfo : String → Option RepoInfo
  symlinkOk : String → Bool

/-- `fileExists` (hub package): `os.Stat`, true on success, false when the
path does not exist, and `panic(err)` on any other stat error. -/
def fileExistsRun (env : DlEnv) (fs : FS) (p : String) : Run Bool :=
  if env.statHardErr p then .panicked
  else .ok (fileExistsPure fs p)

/-- `files.Exists` (internal/files): true exactly when `os.Stat` returns no
error; any stat failure, hard or not-exist, yields false (no panic). -/
def filesExists (env : DlEnv) (fs : FS) (p : String) : Bool :=
  if env.statHardErr p then false else fileExistsPure fs p

/-- Outcome of an `os.Stat` call, abstracted. -/
inductive StatResult where
  | statOk
  | statNotExist
  | statOtherErr
deriving DecidableEq, Repr

/-- `fileExists` (hub package) as a function of the stat outcome: true on
success, false when the path does not exist, and `panic(err)` on any other
stat error. -/
def fileExistsGo : StatResult → Run Bool
  | .statOk => .ok true
  | .statNotExist => .ok false
  | .statOtherErr => .panicked

/-- The stat outcome of a path under the environment oracle. -/
def statOf (env : DlEnv) (fs : FS) (p : String) : StatResult :=
  if env.statHardErr p then .statOtherErr
  else if (fs p).isSome then .statOk else .statNotExist

/-- `path.Dir`: everything before the final slash, cleaned. -/
def goPathDir (p : GoStr) : GoStr :=
  goPathClean ((p.reverse.dropWhile (fun c => c ≠ '/')).reverse)

/-- The directory part of Go `path.Split`: everything up to and including the
final slash, not cleaned. -/
def goPathSplitDir (p : GoStr) : GoStr :=
  (p.reverse.dropWhile (fun c => c ≠ '/')).reverse

/-- `path.Dir` on `String`s. -/
def goPathDirS (p : String) : String := ⟨goPathDir p.data⟩

/-- The directory part of `path.Split` on `String`s. -/
def goPathSplitDirS (p : String) : String := ⟨goPathSplitDir p.data⟩

/-- `path.Join` on `String`s. -/
def goJoinList (elems : List String) : String := ⟨goPathJoin (elems.map String.data)⟩

/-- Binary `path.Join` on `String`s. -/
def goJoin2 (a b : String) : String := goJoinList [a, b]

/-- `cleanRelativeFilePath` on `String`s. -/
def cleanRelativeFilePathS (s : String) : String := ⟨cleanRelativeFilePath s.data⟩

/-! ## `lockedDownload` (hub/download.go) -/

/-- Result of one `lockedDownload` call: the filesystem afterwards, the
side-effect trace, and the returned error if any. -/
structure DlResult where
  world : FS
  effects : List Effect
  error : Option DlError

/-- The critical section of `lockedDownload`: the closure passed to
`execOnFileLock`.  Re-checks existence, creates `filePath + ".downloading"`,
streams the transfer into it, closes and renames it, and finally removes the
lock file best-effort.  The deferred cleanup closes and removes the temporary
file only while `tmpFileClosed` is still false; the source sets
`tmpFileClosed = true` before calling `Close`, so on a close or rename failure
the cleanup is skipped and the temporary file stays on disk.  On a transfer
failure the temporary file holds the truncated bytes until the cleanup removes
it.  Removing an existing file is modeled as always succeeding (the source
only logs cleanup-removal failures). -/
def lockedCriticalSection (env : DlEnv) (fs : FS) (url filePath : String) :
    Run DlResult :=
  match fileExistsRun env fs filePath with
  | .panicked => .panicked
  | .ok true => .ok ⟨fs, [], none⟩
  | .ok false =>
    if env.createOk (filePath ++ ".downloading") then
      match env.transfer url with
      | none =>
        .ok ⟨fsRemove
               (fsWrite (fsWrite fs (filePath ++ ".downloading") "")
                 (filePath ++ ".downloading") (env.truncatedContent url))
               (filePath ++ ".downloading"),
             [Effect.createE (filePath ++ ".downloading"), Effect.transferE url,
              Effect.removeE (filePath ++ ".downloading")],
             some (DlError.transferFailed url)⟩
      | some content =>
        if ¬ env.closeOk (filePath ++ ".downloading") then
          .ok ⟨fsWrite (fsWrite fs (filePath ++ ".downloading") "")
                 (filePath ++ ".downloading") content,
               [Effect.createE (filePath ++ ".downloading"), Effect.transferE url],
               some (DlError.closeFailed (filePath ++ ".downloading"))⟩
        else if ¬ env.renameOk (filePath ++ ".downloading") then
          .ok ⟨fsWrite (fsWrite fs (filePath ++ ".downloading") "")
                 (filePath ++ ".downloading") content,
               [Effect.createE (filePath ++ ".downloading"), Effect.transferE url],
               some (DlError.renameFailed (filePath ++ ".downloading") filePath)⟩
        else
          .ok ⟨fsRemove
                 (fsWrite
                   (fsRemove
                     (fsWrite (fsWrite fs (filePath ++ ".downloading") "")
                       (filePath ++ ".downloading") content)
                     (filePath ++ ".downloading"))
                   filePath content)
                 (filePath ++ ".lock"),
               [Effect.createE (filePath ++ ".downloading"), Effect.transferE url,
                Effect.renameE (filePath ++ ".downloading") filePath,
                Effect.removeE (filePath ++ ".lock")],
               none⟩
    else
      .ok ⟨fs, [Effect.createE (filePath ++ ".downloading")],
           some (DlError.createTempFailed (filePath ++ ".downloading"))⟩

/-- Steps 2 onward of `lockedDownload`: cancellation check, destination
directory creation, lock acquisition (which creates the lock file), and the
critical section.  `effs0` carries the effects of a preceding force-refresh
removal. -/
def lockedDownloadBody (env : DlEnv) (fs : FS) (url filePath : String)
    (effs0 : List Effect) : Run DlResult :=
  if env.ctxCancelled then .ok ⟨fs, effs0, some DlError.cancelled⟩
  else if ¬ env.mkdirOk (goPathDirS filePath) then
    .ok ⟨fs, effs0 ++ [Effect.mkdirE (goPathDirS filePath)],
         some (DlError.mkdirFailed filePath)⟩
  else if ¬ env.lockOk (filePath ++ ".lock") then
    .ok ⟨fs, effs0 ++ [Effect.mkdirE (goPathDirS filePath)],
         some (DlError.lockFailed (filePath ++ ".lock"))⟩
  else
    match lockedCriticalSection env (fsEnsure fs (filePath ++ ".lock")) url filePath with
    | .panicked => .panicked
    | .ok res =>
      .ok ⟨res.world, effs0 ++ [Effect.mkdirE (goPathDirS filePath)] ++ res.effects,
           res.error⟩

/-- `lockedDownload`: return immediately when the destination exists and no
force refresh is requested; under force refresh remove the destination first
(an existing file, so the removal succeeds in the model); then run the guarded
download body. -/
def lockedDownload (env : DlEnv) (fs : FS) (url filePath : String)
    (forceDownload : Bool) : Run DlResult :=
  match fileExistsRun env fs filePath with
  | .panicked => .panicked
  | .ok true =>
    if ¬ forceDownload then .ok ⟨fs, [], none⟩
    else lockedDownloadBody env (fsRemove fs filePath) url filePath
      [Effect.removeE filePath]
  | .ok false => lockedDownloadBody env fs url filePath []

/-! ## `execOnFileLock` (hub/download.go) -/

/-- State of the lock file descriptor: open, and holding the advisory lock. -/
structure LockState where
  fdOpen : Bool
  locked : Bool
deriving DecidableEq, Repr

/-- How control leaves `execOnFileLock`. -/
inductive ExitKind where
  | normal
  | errored
  | panicked
deriving DecidableEq, Repr

/-- `f.Close()`: closing the descriptor also releases any advisory `flock`
lock held through it (flock(2): the lock is released when the descriptor is
closed). -/
def closeFd (_ : LockState) : LockState := ⟨false, false⟩

/-- `syscall.Flock(fd, LOCK_EX|LOCK_NB)` succeeding. -/
def flockEx (s : LockState) : LockState := ⟨s.fdOpen, true⟩

/-- `syscall.Flock(fd, LOCK_UN)`. -/
def flockUn (s : LockState) : LockState := ⟨s.fdOpen, false⟩

/-- Environment for `execOnFileLock`: whether the lock file opens, whether the
retry loop eventually acquires the lock (as opposed to hitting a non-EAGAIN
error), and whether the guarded function panics. -/
structure FlockEnv where
  openOk : Bool
  flockAcquires : Bool
  fnPanics : Bool
deriving DecidableEq, Repr

/-- `execOnFileLock`, tracking the descriptor/lock state, whether the
exclusive lock was ever acquired, and the exit kind.  After `fn` runs the
named return `err` is still `nil`, so the deferred explicit
`Flock(LOCK_UN)` - guarded by `if err != nil` in the source - never fires; the
release happens through the outer deferred `f.Close()`, which runs on normal
return, on the error return of the retry loop, and while unwinding a panic of
`fn`. -/
def execOnFileLock (env : FlockEnv) : LockState × Bool × ExitKind :=
  if ¬ env.openOk then (⟨false, false⟩, false, ExitKind.errored)
  else if ¬ env.flockAcquires then
    (closeFd ⟨true, false⟩, false, ExitKind.errored)
  else
    let s1 := flockEx ⟨true, false⟩
    let errAfterFn : Option DlError := none
    let s2 := if errAfterFn.isSome then flockUn s1 else s1
    if env.fnPanics then (closeFd s2, true, ExitKind.panicked)
    else (closeFd s2, true, ExitKind.normal)

/-! ## Repository info (hub/repo.go, hub/info.go) -/

/-- `strings.Join(elems, sep)`. -/
def stringsJoin (sep : String) : List String → String
  | [] => ""
  | [x] => x
  | x :: xs => x ++ sep ++ stringsJoin sep xs

/-- `Repo.flatFolderName`: repo type and the `/`-separated id parts joined
with `"--"`. -/
def flatFolderName (r : Repo) : String :=
  stringsJoin "--"
    (r.repoType :: (splitOnSlash r.id.data).map (fun w => (⟨w⟩ : String)))

/-- The directory computed by `Repo.repoCacheDir` before its `MkdirAll`. -/
def repoCacheDirPath (r : Repo) : String :=
  goJoin2 r.cacheDir (flatFolderName r)

/-- `Repo.repoCacheDir`: join cache dir and flat folder name, create the
directory, and fail if creation fails. -/
def repoCacheDir (env : DlEnv) (r : Repo) : Except DlError String :=
  if env.mkdirOk (repoCacheDirPath r) then .ok (repoCacheDirPath r)
  else .error (DlError.mkdirFailed (repoCacheDirPath r))

/-- `Repo.infoURL`: `<endpoint>/api/<repoType>/<id>/revision/<revision>`. -/
def infoURL (r : Repo) : String :=
  r.hfEndpoint ++ "/api/" ++ r.repoType ++ "/" ++ r.id ++ "/revision/" ++ r.revision

/-- The on-disk path of the cached info document:
`<repoCacheDir>/info/<revision>`. -/
def infoFilePathOf (r : Repo) : String :=
  goJoin2 (goJoin2 (repoCacheDirPath r) "info") r.revision

/-- The download step of `DownloadInfo`: fetch the info document through
`lockedDownload` when the cached file is absent (`files.Exists`) or a refresh
is forced. -/
def downloadInfoFetch (env : DlEnv) (fs : FS) (r : Repo) (forceDownload : Bool)
    (infoFilePath : String) : Run (FS × Option DlError) :=
  if ¬ filesExists env fs infoFilePath ∨ forceDownload then
    match lockedDownload env fs (infoURL r) infoFilePath forceDownload with
    | .panicked => .panicked
    | .ok res => .ok (res.world, res.error)
  else .ok (fs, none)

/-- The read-and-parse step of `DownloadInfo`: read the info file from disk
(`os.ReadFile`, failing when the read fails or the file is absent), decode the
JSON, and only on a fully successful parse assign `r.info`. -/
def downloadInfoParse (env : DlEnv) (fs1 : FS) (r : Repo) (infoFilePath : String) :
    FS × Repo × Option DlError :=
  if ¬ env.readOk infoFilePath then
    (fs1, r, some (DlError.readInfoFailed infoFilePath))
  else
    match fs1 infoFilePath with
    | none => (fs1, r, some (DlError.readInfoFailed infoFilePath))
    | some contents =>
      match env.parseInfo contents with
      | none => (fs1, r, some (DlError.parseInfoFailed infoFilePath))
      | some newInfo => (fs1, { r with info := some newInfo }, none)

/-- `Repo.DownloadInfo`: short-circuit when info is cached in memory and no
refresh is forced; otherwise create the info directory, download the info
document when the file is absent or a refresh is forced, read it back, parse
it, and only on a fully successful parse assign `r.info`. -/
def downloadInfo (env : DlEnv) (fs : FS) (r : Repo) (forceDownload : Bool) :
    Run (FS × Repo × Option DlError) :=
  if r.info.isSome ∧ ¬ forceDownload then .ok (fs, r, none)
  else
    match repoCacheDir env r with
    | .error e => .ok (fs, r, some e)
    | .ok cacheDir =>
      if ¬ env.mkdirOk (goJoin2 cacheDir "info") then
        .ok (fs, r, some (DlError.mkdirFailed (goJoin2 cacheDir "info")))
      else
        match downloadInfoFetch env fs r forceDownload
            (goJoin2 (goJoin2 cacheDir "info") r.revision) with
        | .panicked => .panicked
        | .ok (fs1, some e) => .ok (fs1, r, some e)
        | .ok (fs1, none) =>
          .ok (downloadInfoParse env fs1 r
            (goJoin2 (goJoin2 cacheDir "info") r.revision))

/-! ## File metadata probe (hub, `extractFileMetadata`) -/

/-- `http.Header.Get` modeled as first-match lookup in a header list,
returning `""` when the key is absent. -/
def headerGet (header : List (String × String)) (key : String) : String :=
  match header.find? (fun kv => kv.1 = key) with
  | some kv => kv.2
  | none => ""

/-- `removeQuotes`: strip all leading and trailing double quotes
(`strings.TrimLeft` / `strings.TrimRight` with cutset `"\""`). -/
def removeQuotes (s : String) : String :=
  ⟨((s.data.dropWhile (fun c => c = '"')).reverse.dropWhile
      (fun c => c = '"')).reverse⟩

/-- `fileMetadata` (hub, download code). -/
structure FileMetadata where
  commitHash : String
  etag : String
  location : String
  size : Int
deriving DecidableEq, Repr

/-- `extractFileMetadata`: commit hash from `X-Repo-Commit`; ETag from
`X-Linked-Etag` falling back to `ETag`, with surrounding quotes stripped;
location from `Location` falling back to the requested URL; size from
`X-Linked-Size` (0 on a parse error) falling back to the content length. -/
def extractFileMetadata (header : List (String × String)) (url : String)
    (contentLength : Int) : FileMetadata :=
  { commitHash := headerGet header "X-Repo-Commit"
    etag := removeQuotes
      (if headerGet header "X-Linked-Etag" = "" then headerGet header "ETag"
       else headerGet header "X-Linked-Etag")
    location :=
      if headerGet header "Location" = "" then url else headerGet header "Location"
    size :=
      if (if headerGet header "X-Linked-Size" = "" then (0 : Int)
          else ((headerGet header "X-Linked-Size").toInt?).getD 0) = 0 then
        contentLength
      else ((headerGet header "X-Linked-Size").toInt?).getD 0 }

/-! ## `DownloadFiles` (hub, batch orchestrator) -/

/-- `Repo.FileURL` with the commit hash already resolved: model repositories
omit the type segment, other types include it. -/
def fileURLOf (r : Repo) (commitHash fileName : String) : String :=
  if r.repoType = "models" then
    r.hfEndpoint ++ "/" ++ r.id ++ "/resolve/" ++ commitHash ++ "/" ++ fileName
  else
    r.hfEndpoint ++ "/" ++ r.repoType ++ "/" ++ r.id ++ "/resolve/" ++
      commitHash ++ "/" ++ fileName

/-- `createSymLink`: remove an existing destination (removal of an existing
file succeeds in the model; a missing file is not an error), then create the
link.  The link is stored as a file whose content names its target. -/
def symlinkStep (env : DlEnv) (fs : FS) (dst src : String) :
    FS × List Effect × Except DlError String :=
  if env.symlinkOk dst then
    (fsWrite (fsRemove fs dst) dst ("symlink:" ++ src),
     [Effect.symlinkE dst src], .ok dst)
  else (fsRemove fs dst, [Effect.symlinkE dst src],
        .error (DlError.symlinkFailed dst))

/-- The per-file worker goroutine body of `DownloadFiles`: probe the header,
fail on a missing ETag or on a canonical location differing from the requested
URL, then download the blob if it is not already present, and finally link the
snapshot path to the blob. -/
def dlWorker (env : DlEnv) (fs : FS) (repoDir url name snapshotPath : String) :
    Run (FS × List Effect × Except DlError String) :=
  match env.fetchHeader url with
  | none => .ok (fs, [], .error (DlError.headFailed url))
  | some (header, contentLength) =>
    if (extractFileMetadata header url contentLength).etag = "" then
      .ok (fs, [], .error (DlError.noETag name))
    else if (extractFileMetadata header url contentLength).location ≠ url then
      .ok (fs, [], .error (DlError.redirectMismatch name))
    else
      match fileExistsRun env fs
          (goJoinList [repoDir, "blobs",
            (extractFileMetadata header url contentLength).etag]) with
      | .panicked => .panicked
      | .ok true =>
        .ok (symlinkStep env fs snapshotPath
          (goJoinList [repoDir, "blobs",
            (extractFileMetadata header url contentLength).etag]))
      | .ok false =>
        match lockedDownload env fs url
            (goJoinList [repoDir, "blobs",
              (extractFileMetadata header url contentLength).etag]) false with
        | .panicked => .panicked
        | .ok dres =>
          match dres.error with
          | some e => .ok (dres.world, dres.effects, .error e)
          | none =>
            match symlinkStep env dres.world snapshotPath
                (goJoinList [repoDir, "blobs",
                  (extractFileMetadata header url contentLength).etag]) with
            | (fs2, effs2, res2) => .ok (fs2, dres.effects ++ effs2, res2)

/-- Processing of one requested name in the `DownloadFiles` loop: reject a
name whose sanitized relative path is `"."`, record and skip a snapshot path
that already exists, create the snapshot file's directory, and run the
worker. -/
def dlStep (env : DlEnv) (fs : FS) (r : Repo) (repoDir snapDir commitHash : String)
    (name : String) : Run (FS × List Effect × Except DlError String) :=
  if cleanRelativeFilePathS name = "." then
    .ok (fs, [], .error (DlError.invalidFileName name))
  else
    match fileExistsRun env fs (goJoin2 snapDir (cleanRelativeFilePathS name)) with
    | .panicked => .panicked
    | .ok true => .ok (fs, [], .ok (goJoin2 snapDir (cleanRelativeFilePathS name)))
    | .ok false =>
      if ¬ env.mkdirOk (goPathSplitDirS (goJoin2 snapDir (cleanRelativeFilePathS name))) then
        .ok (fs, [Effect.mkdirE (goPathSplitDirS (goJoin2 snapDir (cleanRelativeFilePathS name)))],
             .error (DlError.mkdirFailed (goJoin2 snapDir (cleanRelativeFilePathS name))))
      else
        match dlWorker env fs repoDir (fileURLOf r commitHash name) name
            (goJoin2 snapDir (cleanRelativeFilePathS name)) with
        | .panicked => .panicked
        | .ok (fs1, effs1, res1) =>
          .ok (fs1,
               Effect.mkdirE (goPathSplitDirS (goJoin2 snapDir (cleanRelativeFilePathS name)))
                 :: effs1,
               res1)

/-- The `DownloadFiles` loop over the requested names.  The concurrent fan-out
is modeled as an in-order traversal; a failing unit cancels the shared
context, so processing stops at the first error (claims about this loop
concern error propagation and the order of the aggregated results, not the
interleaving of the workers). -/
def dlLoop (env : DlEnv) (r : Repo) (repoDir snapDir commitHash : String) :
    FS → List String → Run (FS × List Effect × Except DlError (List String))
  | fs, [] => .ok (fs, [], .ok [])
  | fs, name :: rest =>
    match dlStep env fs r repoDir snapDir commitHash name with
    | .panicked => .panicked
    | .ok (fs1, effs1, .error e) => .ok (fs1, effs1, .error e)
    | .ok (fs1, effs1, .ok p) =>
      match dlLoop env r repoDir snapDir commitHash fs1 rest with
      | .panicked => .panicked
      | .ok (fs2, effs2, .error e) => .ok (fs2, effs1 ++ effs2, .error e)
      | .ok (fs2, effs2, .ok ps) => .ok (fs2, effs1 ++ effs2, .ok (p :: ps))

/-- Outcome of the sequential prologue of `DownloadFiles` (empty input,
repo cache dir, info resolution, snapshots dir). -/
inductive SetupRes where
  | earlyEmpty
  | failed (fs1 : FS) (r1 : Repo) (e : DlError)
  | proceed (fs1 : FS) (r1 : Repo) (repoDir snapDir commitHash : String)

/-- The prologue of `DownloadFiles`: empty input returns immediately; the repo
cache directory is created; the commit hash is resolved through
`readCommitHashForRevision`, i.e. `DownloadInfo(false)`; reading the commit
hash of an absent info structure would dereference a nil pointer, hence
`panicked`; finally the snapshots directory is created. -/
def downloadFilesSetup (env : DlEnv) (fs : FS) (r : Repo) (files : List String) :
    Run SetupRes :=
  if files = [] then .ok SetupRes.earlyEmpty
  else
    match repoCacheDir env r with
    | .error e => .ok (SetupRes.failed fs r e)
    | .ok repoDir =>
      match downloadInfo env fs r false with
      | .panicked => .panicked
      | .ok (fs1, r1, some e) => .ok (SetupRes.failed fs1 r1 e)
      | .ok (fs1, r1, none) =>
        match r1.info with
        | none => .panicked
        | some info =>
          if env.mkdirOk (goJoinList [repoDir, "snapshots", info.commitHash]) then
            .ok (SetupRes.proceed fs1 r1 repoDir
              (goJoinList [repoDir, "snapshots", info.commitHash]) info.commitHash)
          else
            .ok (SetupRes.failed fs1 r1 (DlError.mkdirFailed
              (goJoinList [repoDir, "snapshots", info.commitHash])))

/-- Aggregated result of `DownloadFiles`. -/
structure BatchResult where
  fs : FS
  repo : Repo
  effects : List Effect
  result : Except DlError (List String)

/-- `Repo.DownloadFiles`: prologue, then the per-file loop; on success one
resolved snapshot path per requested name, in input order. -/
def downloadFiles (env : DlEnv) (fs : FS) (r : Repo) (files : List String) :
    Run BatchResult :=
  match downloadFilesSetup env fs r files with
  | .panicked => .panicked
  | .ok SetupRes.earlyEmpty => .ok ⟨fs, r, [], .ok []⟩
  | .ok (SetupRes.failed fs1 r1 e) => .ok ⟨fs1, r1, [], .error e⟩
  | .ok (SetupRes.proceed fs1 r1 repoDir snapDir commitHash) =>
    match dlLoop env r1 repoDir snapDir commitHash fs1 files with
    | .panicked => .panicked
    | .ok (fs2, effs, res) => .ok ⟨fs2, r1, effs, res⟩

/-! ## Sample environments and states used by the concrete witnesses -/

/-- Repository-info sample used by the concrete witnesses. -/
def sampleInfo : RepoInfo := ⟨"org/m", "", "", "commit0", [], ["a.txt"], 0, []⟩

/-- Environment in which every external operation succeeds. -/
def envAllOk : DlEnv :=
  { statHardErr := fun _ => false
    ctxCancelled := false
    mkdirOk := fun _ => true
    lockOk := fun _ => true
    createOk := fun _ => true
    transfer := fun _ => some "DATA"
    truncatedContent := fun _ => ""
    closeOk := fun _ => true
    renameOk := fun _ => true
    readOk := fun _ => true
    fetchHeader := fun _ => some ([("ETag", "etag1")], 4)
    parseInfo := fun _ => some sampleInfo
    symlinkOk := fun _ => true }

/-- A filesystem holding exactly the file `"p"`. -/
def fsOnlyP : FS := fun q => if q = "p" then some "x" else none

/-- Environment in which everything succeeds except the final rename of the
temporary file onto the destination. -/
def envRenameFails : DlEnv := { envAllOk with renameOk := fun _ => false }

/-- Environment in which every stat call fails hard. -/
def envStatErr : DlEnv := { envAllOk with statHardErr := fun _ => true }

/-- Environment whose header probe answers with no headers, hence no content
tag. -/
def envNoETag : DlEnv := { envAllOk with fetchHeader := fun _ => some ([], 0) }

/-- A repository whose info is already cached in memory. -/
def sampleRepoCached : Repo :=
  ⟨"org/m", "https://hf.co", "models", "main", "", 20, "cache", some sampleInfo⟩

/-- The batch result of downloading `["a.txt"]` from `sampleRepoCached` under
`envAllOk`, starting from an empty filesystem. -/
def c7bres : BatchResult :=
  match downloadFiles envAllOk (fun _ => none) sampleRepoCached ["a.txt"] with
  | Run.ok b => b
  | Run.panicked => ⟨fun _ => none, sampleRepoCached, [], Except.ok []⟩

/-- Components that survive the second pass of `cleanRelativeFilePath` are
nonempty, are not `".."`, and contain no slash; the clean stack keeps those
properties. -/
def goodComp (w : GoStr) : Prop := w ≠ [] ∧ w ≠ dotTwo ∧ '/' ∉ w

/-! ## Lemmas: splitting and joining on slashes -/

theorem splitOnSlash_ne_nil (s : GoStr) : splitOnSlash s ≠ [] := by
  induction s with
  | nil => simp [splitOnSlash]
  | cons c cs ih =>
    simp only [splitOnSlash]
    split
    · simp
    · cases h : splitOnSlash cs with
      | nil => simp
      | cons w ws => simp

theorem slash_not_mem_splitOnSlash (s : GoStr) (w : GoStr)
    (hw : w ∈ splitOnSlash s) : '/' ∉ w := by
  induction s generalizing w with
  | nil =>
    simp [splitOnSlash] at hw
    subst hw; simp
  | cons c cs ih =>
    by_cases hc : c = '/'
    · simp only [splitOnSlash, if_pos hc] at hw
      rcases List.mem_cons.mp hw with h | h
      · subst h; simp
      · exact ih w h
    · simp only [splitOnSlash, if_neg hc] at hw
      cases hsp : splitOnSlash cs with
      | nil => exact absurd hsp (splitOnSlash_ne_nil cs)
      | cons v vs =>
        rw [hsp] at hw
        rcases List.mem_cons.mp hw with h | h
        · subst h
          intro hmem
          rcases List.mem_cons.mp hmem with h' | h'
          · exact hc h'.symm
          · exact ih v (by rw [hsp]; exact List.mem_cons_self _ _) h'
        · exact ih w (by rw [hsp]; exact List.mem_cons_of_mem _ h)

theorem splitOnSlash_no_slash (w : GoStr) (hw : '/' ∉ w) :
    splitOnSlash w = [w] := by
  induction w with
  | nil => simp [splitOnSlash]
  | cons c cs ih =>
    have hc : c ≠ '/' := fun h => hw (h ▸ List.mem_cons_self _ _)
    have hcs : '/' ∉ cs := fun h => hw (List.mem_cons_of_mem _ h)
    simp only [splitOnSlash, if_neg hc, ih hcs]

theorem splitOnSlash_append_slash (w t : GoStr) (hw : '/' ∉ w) :
    splitOnSlash (w ++ '/' :: t) = w :: splitOnSlash t := by
  induction w with
  | nil => simp [splitOnSlash]
  | cons c cs ih =>
    have hc : c ≠ '/' := fun h => hw (h ▸ List.mem_cons_self _ _)
    have hcs : '/' ∉ cs := fun h => hw (List.mem_cons_of_mem _ h)
    simp only [List.cons_append, splitOnSlash, if_neg hc, List.append_eq]
    rw [ih hcs]

theorem splitOnSlash_joinSlash (ws : List GoStr) (hne : ws ≠ [])
    (hw : ∀ w ∈ ws, '/' ∉ w) : splitOnSlash (joinSlash ws) = ws := by
  induction ws with
  | nil => exact absurd rfl hne
  | cons w rest ih =>
    cases rest with
    | nil =>
      simp only [joinSlash]
      exact splitOnSlash_no_slash w (hw w (List.mem_cons_self _ _))
    | cons v vs =>
      have hjoin : joinSlash (w :: v :: vs) = w ++ '/' :: joinSlash (v :: vs) := rfl
      rw [hjoin,
        splitOnSlash_append_slash w _ (hw w (List.mem_cons_self _ _)),
        ih (by simp) (fun u hu => hw u (List.mem_cons_of_mem _ hu))]

theorem joinSlash_cons_head (c : Char) (cs : GoStr) (ws : List GoStr) :
    ∃ t, joinSlash ((c :: cs) :: ws) = c :: t := by
  cases ws with
  | nil => exact ⟨cs, rfl⟩
  | cons v vs => exact ⟨cs ++ '/' :: joinSlash (v :: vs), rfl⟩

/-! ## Lemmas: the component stack built by `goPathClean` -/

theorem cleanStep_stack_inv (rooted : Bool) (comps : List GoStr) :
    ∀ stack : List GoStr,
      (∀ w ∈ comps, w ≠ dotTwo ∧ '/' ∉ w) →
      (∀ w ∈ stack, goodComp w) →
      ∀ w ∈ comps.foldl (cleanStep rooted) stack, goodComp w := by
  induction comps with
  | nil =>
    intro stack _ hstack
    simpa using hstack
  | cons c cs ih =>
    intro stack hcomps hstack
    simp only [List.foldl_cons]
    refine ih _ (fun w hw => hcomps w (List.mem_cons_of_mem _ hw)) ?_
    intro w hw
    unfold cleanStep at hw
    split at hw
    · exact hstack w hw
    · split at hw
      · exact absurd (by assumption) (hcomps c (List.mem_cons_self _ _)).1
      · rcases List.mem_cons.mp hw with h | h
        · subst h
          refine ⟨?_, ?_, (hcomps w (List.mem_cons_self _ _)).2⟩
          · intro h0
            exact (by assumption : ¬(w = [] ∨ w = dotOne)) (Or.inl h0)
          · exact (hcomps w (List.mem_cons_self _ _)).1
        · exact hstack w h

/-- Cleaning a join of good components yields a path that is not absolute and
has no `..` component. -/
theorem goPathClean_joinSlash_safe (elems : List GoStr) (hne : elems ≠ [])
    (helem : ∀ w ∈ elems, goodComp w) :
    goIsAbs (goPathClean (joinSlash elems)) = false ∧
      dotTwo ∉ splitOnSlash (goPathClean (joinSlash elems)) := by
  obtain ⟨w0, ws, rfl⟩ : ∃ w0 ws, elems = w0 :: ws := by
    cases elems with
    | nil => exact absurd rfl hne
    | cons w0 ws => exact ⟨w0, ws, rfl⟩
  obtain ⟨c, cs, rfl⟩ : ∃ c cs, w0 = c :: cs := by
    cases w0 with
    | nil => exact absurd rfl (helem [] (List.mem_cons_self _ _)).1
    | cons c cs => exact ⟨c, cs, rfl⟩
  have hc : c ≠ '/' := fun h =>
    (helem _ (List.mem_cons_self _ _)).2.2 (h ▸ List.mem_cons_self _ _)
  obtain ⟨t, ht⟩ := joinSlash_cons_head c cs ws
  have hts : joinSlash ((c :: cs) :: ws) ≠ [] := by rw [ht]; simp
  have hrooted : goIsAbs (joinSlash ((c :: cs) :: ws)) = false := by
    rw [ht]
    simp [goIsAbs, hc]
  have hsplit : splitOnSlash (joinSlash ((c :: cs) :: ws)) = (c :: cs) :: ws :=
    splitOnSlash_joinSlash _ (by simp) (fun w hw => (helem w hw).2.2)
  have hstack : ∀ w ∈ (((c :: cs) :: ws).foldl (cleanStep false) []), goodComp w :=
    cleanStep_stack_inv false _ []
      (fun w hw => ⟨(helem w hw).2.1, (helem w hw).2.2⟩) (by simp)
  rw [goPathClean, if_neg hts]
  simp only [hrooted, hsplit, Bool.false_eq_true, if_false]
  cases hrev : (((c :: cs) :: ws).foldl (cleanStep false) []).reverse with
  | nil =>
    simp only [hrev, joinSlash, if_pos rfl]
    constructor
    · rfl
    · decide
  | cons v vs =>
    have hv : goodComp v := by
      refine hstack v ?_
      have : v ∈ (((c :: cs) :: ws).foldl (cleanStep false) []).reverse := by
        rw [hrev]; exact List.mem_cons_self _ _
      exact List.mem_reverse.mp this
    obtain ⟨c2, cs2, rfl⟩ : ∃ c2 cs2, v = c2 :: cs2 := by
      cases v with
      | nil => exact absurd rfl hv.1
      | cons c2 cs2 => exact ⟨c2, cs2, rfl⟩
    have hc2 : c2 ≠ '/' := fun h => hv.2.2 (h ▸ List.mem_cons_self _ _)
    obtain ⟨u, hu⟩ := joinSlash_cons_head c2 cs2 vs
    rw [hu]
    have hvsmem : ∀ w ∈ (c2 :: cs2) :: vs, goodComp w := by
      intro w hw
      refine hstack w (List.mem_reverse.mp ?_)
      rw [hrev]; exact hw
    constructor
    · simp only [if_neg (by simp : ¬(c2 :: u = ([] : GoStr)))]
      simp [goIsAbs, hc2]
    · simp only [if_neg (by simp : ¬(c2 :: u = ([] : GoStr)))]
      rw [← hu, splitOnSlash_joinSlash _ (by simp) (fun w hw => (hvsmem w hw).2.2)]
      intro hmem
      exact (hvsmem dotTwo hmem).2.1 rfl

/-- C1: for every input string, `cleanRelativeFilePath` returns a path that is
never absolute and contains no `..` segment, so a repository-declared file
name can never produce a path that escapes the snapshot root. -/
theorem cleanRelativeFilePath_never_escapes (s : GoStr) :
    goIsAbs (cleanRelativeFilePath s) = false ∧
      dotTwo ∉ splitOnSlash (cleanRelativeFilePath s) := by
  simp only [cleanRelativeFilePath]
  by_cases hparts :
      (splitOnSlash (goPathClean (goPathJoin (splitOnSlash s)))).filter
        (fun w => ¬(w = [] ∨ w = dotTwo)) = []
  · rw [if_pos hparts]
    exact ⟨rfl, by decide⟩
  · rw [if_neg hparts]
    have hgood : ∀ w ∈ (splitOnSlash (goPathClean (goPathJoin (splitOnSlash s)))).filter
        (fun w => ¬(w = [] ∨ w = dotTwo)), goodComp w := by
      intro w hw
      have hmf := List.mem_filter.mp hw
      have hpred : ¬(w = [] ∨ w = dotTwo) := by
        have := hmf.2
        simpa using this
      exact ⟨fun h => hpred (Or.inl h), fun h => hpred (Or.inr h),
        slash_not_mem_splitOnSlash _ w hmf.1⟩
    obtain ⟨w0, ws, hw0⟩ : ∃ w0 ws,
        (splitOnSlash (goPathClean (goPathJoin (splitOnSlash s)))).filter
          (fun w => ¬(w = [] ∨ w = dotTwo)) = w0 :: ws := by
      cases hlist : (splitOnSlash (goPathClean (goPathJoin (splitOnSlash s)))).filter
          (fun w => ¬(w = [] ∨ w = dotTwo)) with
      | nil => exact absurd hlist hparts
      | cons w0 ws => exact ⟨w0, ws, rfl⟩
    rw [hw0]
    rw [hw0] at hgood
    have hw0ne : w0 ≠ [] := (hgood w0 (List.mem_cons_self _ _)).1
    have hall : (w0 :: ws).all (fun w => w = []) = false := by
      simp only [List.all_cons, Bool.and_eq_false_iff]
      left
      simpa using hw0ne
    have hdrop : (w0 :: ws).dropWhile (fun w => w = []) = w0 :: ws := by
      rw [List.dropWhile_cons]
      simp [hw0ne]
    simp only [goPathJoin, hall, Bool.false_eq_true, if_false, hdrop]
    exact goPathClean_joinSlash_safe (w0 :: ws) (by simp) hgood

/-! ## Semaphore theorems -/

theorem acquireN_run (k : Nat) : ∀ cur : Int, ∀ c : Int, 0 < c → cur + k ≤ c →
    Semaphore.acquireN k ⟨c, cur⟩ = some ⟨c, cur + k⟩ := by
  induction k with
  | zero => intro cur c _ _; simp [Semaphore.acquireN]
  | succ k ih =>
    intro cur c hc hk
    have hcur : cur < c := by push_cast at hk ⊢; omega
    have hready : Semaphore.acquireReady ⟨c, cur⟩ = true := by
      simp [Semaphore.acquireReady]
      omega
    have hacq : Semaphore.acquire ⟨c, cur⟩ = some ⟨c, cur + 1⟩ := by
      simp [Semaphore.acquire, hready]
    show (Semaphore.acquire ⟨c, cur⟩).bind (Semaphore.acquireN k)
        = some ⟨c, cur + ((k : Nat) + 1 : Nat)⟩
    rw [hacq]
    show Semaphore.acquireN k ⟨c, cur + 1⟩ = some ⟨c, cur + ((k : Nat) + 1 : Nat)⟩
    rw [ih (cur + 1) c hc (by push_cast at hk ⊢; omega)]
    simp only [Option.some.injEq, Semaphore.mk.injEq, true_and]
    push_cast
    ring

/-- C4: for every capacity `c > 0` the semaphore admits an `Acquire` exactly
when the number of active holders is below `c`; after `n = c` admitted
acquisitions from an idle semaphore a further `Acquire` does not proceed,
and it is admissible again after a `Release`; for non-positive capacity every
`Acquire` is admitted unconditionally. -/
theorem semaphore_acquire_admission (c cur : Int) (n : Nat) (hn : 0 < n) :
    (0 < c → (Semaphore.acquireReady ⟨c, cur⟩ = true ↔ cur < c))
    ∧ (c ≤ 0 → Semaphore.acquireReady ⟨c, cur⟩ = true)
    ∧ Semaphore.acquireN n ⟨(n : Int), 0⟩ = some ⟨(n : Int), (n : Int)⟩
    ∧ Semaphore.acquire ⟨(n : Int), (n : Int)⟩ = none
    ∧ Semaphore.acquireReady (Semaphore.release ⟨(n : Int), (n : Int)⟩).1 = true := by
  refine ⟨?_, ?_, ?_, ?_, ?_⟩
  · intro hc
    simp [Semaphore.acquireReady]
    omega
  · intro hc
    simp [Semaphore.acquireReady]
    omega
  · have := acquireN_run n 0 (n : Int) (by exact_mod_cast hn) (by omega)
    simpa using this
  · have hready : Semaphore.acquireReady ⟨(n : Int), (n : Int)⟩ = false := by
      simp [Semaphore.acquireReady]
      omega
    simp [Semaphore.acquire, hready]
  · have h1 : (Semaphore.release ⟨(n : Int), (n : Int)⟩).1
        = ⟨(n : Int), (n : Int) - 1⟩ := by
      simp only [Semaphore.release]
      split <;> rfl
    rw [h1]
    simp only [Semaphore.acquireReady, decide_eq_true_eq]
    omega

/-- Witness for `semaphore_acquire_admission` at `c = 3`, `cur = 1`, `n = 2`. -/
theorem semaphore_acquire_admission_witness :
    (0 < 2
    ∧ ((0 < (3 : Int) → (Semaphore.acquireReady ⟨3, 1⟩ = true ↔ (1 : Int) < 3))
    ∧ ((3 : Int) ≤ 0 → Semaphore.acquireReady ⟨3, 1⟩ = true)
    ∧ Semaphore.acquireN 2 ⟨((2 : Nat) : Int), 0⟩ = some ⟨((2 : Nat) : Int), ((2 : Nat) : Int)⟩
    ∧ Semaphore.acquire ⟨((2 : Nat) : Int), ((2 : Nat) : Int)⟩ = none
    ∧ Semaphore.acquireReady (Semaphore.release ⟨((2 : Nat) : Int), ((2 : Nat) : Int)⟩).1 = true)) :=
  ⟨by decide, semaphore_acquire_admission 3 1 2 (by decide)⟩

/-- C8: resizing to a smaller positive capacity stores only the new capacity:
the current-holder count is untouched, no broadcast (and no eviction
mechanism) fires, and the new bound governs the admission test for future
`Acquire` calls. -/
theorem semaphore_resize_shrink_frame (s : Semaphore) (c' : Int)
    (h1 : 0 < c') (h2 : c' < s.capacity) :
    (Semaphore.resize s c').1.capacity = c'
    ∧ (Semaphore.resize s c').1.current = s.current
    ∧ (Semaphore.resize s c').2 = false
    ∧ (Semaphore.acquireReady (Semaphore.resize s c').1 = true ↔ s.current < c') := by
  have hne : c' ≠ s.capacity := by omega
  unfold Semaphore.resize
  rw [if_neg hne, if_pos (Or.inl ⟨h1, h2⟩)]
  refine ⟨rfl, rfl, rfl, ?_⟩
  simp [Semaphore.acquireReady]
  omega

/-- Witness for `semaphore_resize_shrink_frame` at `s = ⟨5, 3⟩`, `c' = 2`. -/
theorem semaphore_resize_shrink_frame_witness :
    (0 < (2 : Int) ∧ (2 : Int) < (Semaphore.mk 5 3).capacity)
    ∧ ((Semaphore.resize ⟨5, 3⟩ 2).1.capacity = 2
    ∧ (Semaphore.resize ⟨5, 3⟩ 2).1.current = (Semaphore.mk 5 3).current
    ∧ (Semaphore.resize ⟨5, 3⟩ 2).2 = false
    ∧ (Semaphore.acquireReady (Semaphore.resize ⟨5, 3⟩ 2).1 = true ↔ (Semaphore.mk 5 3).current < 2)) :=
  ⟨⟨by decide, by decide⟩, semaphore_resize_shrink_frame ⟨5, 3⟩ 2 (by decide) (by decide)⟩

/-! ## Cross-process lock theorems -/

/-- C9: on every exit path of `execOnFileLock` after the exclusive lock has
been acquired — normal return of the guarded function, an error, or a panic
inside the guarded function — the advisory lock is no longer held when control
leaves the function: the deferred `f.Close()` releases it even though the
explicit unlock is guarded by `err != nil` and never fires. -/
theorem execOnFileLock_releases_lock (env : FlockEnv)
    (h : (execOnFileLock env).2.1 = true) :
    ((execOnFileLock env).1).locked = false
    ∧ ((execOnFileLock env).1).fdOpen = false := by
  rcases env with ⟨o, a, p⟩
  cases o <;> cases a <;> cases p <;>
    simp_all [execOnFileLock, closeFd, flockEx, flockUn]

/-- Witness for `execOnFileLock_releases_lock`: lock file opens, the lock is
acquired, and the guarded function panics. -/
theorem execOnFileLock_releases_lock_witness :
    ((execOnFileLock ⟨true, true, true⟩).2.1 = true)
    ∧ (((execOnFileLock ⟨true, true, true⟩).1).locked = false
       ∧ ((execOnFileLock ⟨true, true, true⟩).1).fdOpen = false) :=
  ⟨by decide, execOnFileLock_releases_lock ⟨true, true, true⟩ (by decide)⟩

/-! ## `lockedDownload` theorems -/

theorem string_append_ne_self (p s : String) (h : s.length ≠ 0) : p ++ s ≠ p := by
  intro he
  have h2 := congrArg String.length he
  rw [String.length_append] at h2
  omega

theorem lock_suffix_ne (p : String) : p ++ ".lock" ≠ p :=
  string_append_ne_self p ".lock" (by decide)

theorem downloading_suffix_ne (p : String) : p ++ ".downloading" ≠ p :=
  string_append_ne_self p ".downloading" (by decide)

theorem ne_lock_suffix (p : String) : p ≠ p ++ ".lock" :=
  fun h => lock_suffix_ne p h.symm

theorem ne_downloading_suffix (p : String) : p ≠ p ++ ".downloading" :=
  fun h => downloading_suffix_ne p h.symm

/-- A successful critical section leaves the destination present. -/
theorem lockedCriticalSection_ok_exists (env : DlEnv) (fs : FS) (url p : String)
    (hsf : env.statHardErr p = false) (cres : DlResult)
    (h1 : lockedCriticalSection env fs url p = Run.ok cres)
    (h2 : cres.error = none) :
    fileExistsPure cres.world p = true := by
  unfold lockedCriticalSection fileExistsRun at h1
  repeat' split at h1
  all_goals solve
    | exact Run.noConfusion h1
    | (cases h1; exact Option.noConfusion h2)
    | (cases h1; simp [fileExistsPure, fsRemove, fsWrite, ne_lock_suffix p])
    | (cases h1; simp_all [fileExistsPure])

/-- A successful download body leaves the destination present. -/
theorem lockedDownloadBody_ok_exists (env : DlEnv) (fs : FS) (url p : String)
    (effs0 : List Effect) (hsf : env.statHardErr p = false) (res : DlResult)
    (h1 : lockedDownloadBody env fs url p effs0 = Run.ok res)
    (h2 : res.error = none) :
    fileExistsPure res.world p = true := by
  unfold lockedDownloadBody at h1
  repeat' split at h1
  all_goals solve
    | exact Run.noConfusion h1
    | (cases h1; exact Option.noConfusion h2)
    | (cases h1
       rename_i cres heq
       exact lockedCriticalSection_ok_exists env _ url p hsf cres heq h2)

/-- When the destination exists and no refresh is forced, `lockedDownload`
returns success with an unchanged filesystem and an empty effect trace. -/
theorem lockedDownload_skip (env : DlEnv) (fs : FS) (url p : String)
    (hstat : env.statHardErr p = false) (hex : fileExistsPure fs p = true) :
    lockedDownload env fs url p false = Run.ok ⟨fs, [], none⟩ := by
  unfold lockedDownload fileExistsRun
  simp [hstat, hex]

/-- A successful `lockedDownload` leaves the destination present, and its stat
of the destination did not fail hard. -/
theorem lockedDownload_ok_exists (env : DlEnv) (fs : FS) (url p : String)
    (force : Bool) (res : DlResult)
    (h1 : lockedDownload env fs url p force = Run.ok res)
    (h2 : res.error = none) :
    fileExistsPure res.world p = true ∧ env.statHardErr p = false := by
  by_cases hstat : env.statHardErr p = true
  · unfold lockedDownload fileExistsRun at h1
    rw [if_pos hstat] at h1
    exact Run.noConfusion h1
  · have hsf : env.statHardErr p = false := by simpa using hstat
    refine ⟨?_, hsf⟩
    unfold lockedDownload fileExistsRun at h1
    rw [if_neg (by simp [hsf])] at h1
    cases hex : fileExistsPure fs p with
    | true =>
      rw [hex] at h1
      by_cases hforce : force = true
      · subst hforce
        have h1' : lockedDownloadBody env (fsRemove fs p) url p
            [Effect.removeE p] = Run.ok res := h1
        exact lockedDownloadBody_ok_exists env _ url p _ hsf res h1' h2
      · have hf : force = false := by simpa using hforce
        subst hf
        have h1' : Run.ok (⟨fs, [], none⟩ : DlResult) = Run.ok res := h1
        cases h1'
        exact hex
    | false =>
      rw [hex] at h1
      have h1' : lockedDownloadBody env fs url p [] = Run.ok res := h1
      exact lockedDownloadBody_ok_exists env _ url p _ hsf res h1' h2

/-- C2: `lockedDownload` is idempotent.  When the destination exists and no
force refresh is requested it returns success immediately with the filesystem
untouched and an empty effect trace (no transfer, deletion, or write); hence
after any successful call, a second call with the same arguments returns
immediately and performs no second transfer. -/
theorem lockedDownload_idempotent (env : DlEnv) (fs : FS) (url p : String)
    (res : DlResult)
    (h1 : lockedDownload env fs url p false = Run.ok res)
    (h2 : res.error = none) :
    lockedDownload env res.world url p false = Run.ok ⟨res.world, [], none⟩
    ∧ (fileExistsPure fs p = true →
        res.world = fs ∧ res.effects = [] ∧
        lockedDownload env fs url p false = Run.ok ⟨fs, [], none⟩) := by
  obtain ⟨hex', hsf⟩ := lockedDownload_ok_exists env fs url p false res h1 h2
  refine ⟨lockedDownload_skip env res.world url p hsf hex', ?_⟩
  intro hex
  have hskip := lockedDownload_skip env fs url p hsf hex
  rw [hskip] at h1
  cases h1
  exact ⟨rfl, rfl, hskip⟩

/-- Witness for `lockedDownload_idempotent`: a first call over a filesystem
already holding the destination. -/
theorem lockedDownload_idempotent_witness :
    (lockedDownload envAllOk fsOnlyP "u" "p" false = Run.ok ⟨fsOnlyP, [], none⟩)
    ∧ ((none : Option DlError) = none)
    ∧ (lockedDownload envAllOk fsOnlyP "u" "p" false = Run.ok ⟨fsOnlyP, [], none⟩
       ∧ (fileExistsPure fsOnlyP "p" = true →
           fsOnlyP = fsOnlyP ∧ ([] : List Effect) = [] ∧
           lockedDownload envAllOk fsOnlyP "u" "p" false = Run.ok ⟨fsOnlyP, [], none⟩)) :=
  ⟨rfl, rfl,
    lockedDownload_idempotent envAllOk fsOnlyP "u" "p" ⟨fsOnlyP, [], none⟩ rfl rfl⟩

/-- C3 evidence: when the transfer succeeds but the rename of the temporary
file fails, `lockedDownload` returns the error while the temporary file
`destPath + ".downloading"` is still on disk — the deferred cleanup was
skipped because `tmpFileClosed` was set to true before `Close` was called.
Nothing is left at the destination path itself. -/
theorem lockedDownload_renameFail_leaves_temp :
    ∃ res : DlResult,
      lockedDownload envRenameFails (fun _ => none) "u" "f" false = Run.ok res
      ∧ res.error = some (DlError.renameFailed ("f" ++ ".downloading") "f")
      ∧ fileExistsPure res.world ("f" ++ ".downloading") = true
      ∧ fileExistsPure res.world "f" = false :=
  ⟨_, rfl, rfl, rfl, rfl⟩

/-! ## `DownloadInfo` theorems -/

theorem repoCacheDir_ok_eq (env : DlEnv) (r : Repo) (d : String)
    (h : repoCacheDir env r = Except.ok d) : d = repoCacheDirPath r := by
  unfold repoCacheDir at h
  split at h
  · cases h; rfl
  · exact Except.noConfusion h

/-- The read-and-parse step never changes the filesystem, keeps the repo
unchanged on any error, and assigns `info` exactly on a successful parse of
the contents read from the info file. -/
theorem downloadInfoParse_spec (env : DlEnv) (fs1 : FS) (r : Repo) (ifp : String) :
    (downloadInfoParse env fs1 r ifp).1 = fs1
    ∧ ((downloadInfoParse env fs1 r ifp).2.2.isSome = true →
        (downloadInfoParse env fs1 r ifp).2.1 = r)
    ∧ ((downloadInfoParse env fs1 r ifp).2.2 = none → ∃ contents newInfo,
        fs1 ifp = some contents ∧ env.parseInfo contents = some newInfo
        ∧ (downloadInfoParse env fs1 r ifp).2.1 = { r with info := some newInfo }) := by
  unfold downloadInfoParse
  split
  · exact ⟨rfl, fun _ => rfl, fun hn => Option.noConfusion hn⟩
  · split
    · exact ⟨rfl, fun _ => rfl, fun hn => Option.noConfusion hn⟩
    · rename_i contents hcontents
      split
      · exact ⟨rfl, fun _ => rfl, fun hn => Option.noConfusion hn⟩
      · rename_i newInfo hparse
        exact ⟨rfl, fun hs => Bool.noConfusion hs,
               fun _ => ⟨contents, newInfo, hcontents, hparse, rfl⟩⟩

/-- C5: when `DownloadInfo` fails — info fetch failure, unreadable cached info
file, or JSON parse failure — it surfaces the error and leaves the
previously-cached in-memory repository info exactly as it was; `r.info` is
assigned only after a fully successful parse. -/
theorem downloadInfo_error_preserves_cached_info (env : DlEnv) (fs : FS)
    (r : Repo) (force : Bool) (fs1 : FS) (r1 : Repo) (oe : Option DlError)
    (h : downloadInfo env fs r force = Run.ok (fs1, r1, oe)) :
    (oe.isSome = true → r1 = r)
    ∧ (oe = none → r1 = r ∨ ∃ contents newInfo,
        fs1 (infoFilePathOf r) = some contents
        ∧ env.parseInfo contents = some newInfo
        ∧ r1 = { r with info := some newInfo }) := by
  unfold downloadInfo at h
  split at h
  · simp only [Run.ok.injEq, Prod.mk.injEq] at h
    obtain ⟨hf, hr, ho⟩ := h
    subst hr; subst ho
    exact ⟨fun _ => rfl, fun _ => Or.inl rfl⟩
  · split at h
    · simp only [Run.ok.injEq, Prod.mk.injEq] at h
      obtain ⟨hf, hr, ho⟩ := h
      subst hr; subst ho
      exact ⟨fun _ => rfl, fun hn => Option.noConfusion hn⟩
    · rename_i cacheDir hcd
      have hceq : cacheDir = repoCacheDirPath r := repoCacheDir_ok_eq env r cacheDir hcd
      subst hceq
      split at h
      · simp only [Run.ok.injEq, Prod.mk.injEq] at h
        obtain ⟨hf, hr, ho⟩ := h
        subst hr; subst ho
        exact ⟨fun _ => rfl, fun hn => Option.noConfusion hn⟩
      · split at h
        · exact Run.noConfusion h
        · simp only [Run.ok.injEq, Prod.mk.injEq] at h
          obtain ⟨hf, hr, ho⟩ := h
          subst hr; subst ho
          exact ⟨fun _ => rfl, fun hn => Option.noConfusion hn⟩
        · rename_i fs1' hfetch
          simp only [Run.ok.injEq] at h
          have hps := downloadInfoParse_spec env fs1' r
            (goJoin2 (goJoin2 (repoCacheDirPath r) "info") r.revision)
          rw [h] at hps
          obtain ⟨hfs, hsome, hnone⟩ := hps
          constructor
          · exact hsome
          · intro hn
            rcases hnone hn with ⟨contents, newInfo, hc, hp, hr⟩
            right
            refine ⟨contents, newInfo, ?_, hp, hr⟩
            have hfs' : fs1 = fs1' := hfs
            rw [hfs']
            exact hc

/-! ## `DownloadFiles` theorems -/

theorem symlinkStep_ok_path (env : DlEnv) (fs : FS) (dst src : String)
    (fs' : FS) (effs : List Effect) (p : String)
    (h : symlinkStep env fs dst src = (fs', effs, Except.ok p)) : p = dst := by
  unfold symlinkStep at h
  split at h
  · simp only [Prod.mk.injEq] at h
    obtain ⟨-, -, h3⟩ := h
    exact (Except.ok.inj h3).symm
  · simp only [Prod.mk.injEq] at h
    exact Except.noConfusion h.2.2

theorem dlWorker_ok_path (env : DlEnv) (fs : FS) (repoDir url name sp : String)
    (fs' : FS) (effs : List Effect) (p : String)
    (h : dlWorker env fs repoDir url name sp = Run.ok (fs', effs, Except.ok p)) :
    p = sp := by
  unfold dlWorker at h
  repeat' split at h
  all_goals solve
    | exact Run.noConfusion h
    | (simp only [Run.ok.injEq, Prod.mk.injEq] at h
       exact Except.noConfusion h.2.2)
    | (simp only [Run.ok.injEq] at h
       exact symlinkStep_ok_path env _ _ _ _ _ _ h)
    | (rename_i heq
       simp only [Run.ok.injEq, Prod.mk.injEq] at h
       obtain ⟨h1, h2, h3⟩ := h
       rw [h3] at heq
       exact symlinkStep_ok_path env _ _ _ _ _ _ heq)

theorem dlStep_ok_path (env : DlEnv) (fs : FS) (r : Repo)
    (repoDir snapDir commitHash name : String)
    (fs' : FS) (effs : List Effect) (p : String)
    (h : dlStep env fs r repoDir snapDir commitHash name
      = Run.ok (fs', effs, Except.ok p)) :
    p = goJoin2 snapDir (cleanRelativeFilePathS name) := by
  unfold dlStep at h
  repeat' split at h
  all_goals solve
    | exact Run.noConfusion h
    | (simp only [Run.ok.injEq, Prod.mk.injEq] at h
       exact Except.noConfusion h.2.2)
    | (simp only [Run.ok.injEq, Prod.mk.injEq] at h
       exact (Except.ok.inj h.2.2).symm)
    | (rename_i heq
       simp only [Run.ok.injEq, Prod.mk.injEq] at h
       obtain ⟨h1, h2, h3⟩ := h
       rw [h3] at heq
       exact dlWorker_ok_path env _ _ _ _ _ _ _ _ heq)

/-- On success the loop returns exactly the snapshot path of every requested
name, in input order. -/
theorem dlLoop_ok_paths (env : DlEnv) (r : Repo)
    (repoDir snapDir commitHash : String) :
    ∀ (files : List String) (fs fs2 : FS) (effs : List Effect) (ps : List String),
      dlLoop env r repoDir snapDir commitHash fs files
        = Run.ok (fs2, effs, Except.ok ps) →
      ps = files.map (fun n => goJoin2 snapDir (cleanRelativeFilePathS n)) := by
  intro files
  induction files with
  | nil =>
    intro fs fs2 effs ps h
    unfold dlLoop at h
    simp only [Run.ok.injEq, Prod.mk.injEq] at h
    exact (Except.ok.inj h.2.2).symm
  | cons name rest ih =>
    intro fs fs2 effs ps h
    unfold dlLoop at h
    split at h
    · exact Run.noConfusion h
    · simp only [Run.ok.injEq, Prod.mk.injEq] at h
      exact Except.noConfusion h.2.2
    · rename_i fs1 effs1 p hstep
      split at h
      · exact Run.noConfusion h
      · simp only [Run.ok.injEq, Prod.mk.injEq] at h
        exact Except.noConfusion h.2.2
      · rename_i fs2' effs2 ps' hloop
        simp only [Run.ok.injEq, Prod.mk.injEq] at h
        obtain ⟨h1, h2, h3⟩ := h
        have hp := dlStep_ok_path env fs r repoDir snapDir commitHash name
          fs1 effs1 p hstep
        have hps' := ih fs1 fs2' effs2 ps' hloop
        rw [← Except.ok.inj h3, List.map_cons, ← hp, ← hps']

theorem downloadFilesSetup_earlyEmpty (env : DlEnv) (fs : FS) (r : Repo)
    (files : List String)
    (h : downloadFilesSetup env fs r files = Run.ok SetupRes.earlyEmpty) :
    files = [] := by
  unfold downloadFilesSetup at h
  split at h
  · assumption
  · repeat' split at h
    all_goals solve
    | exact Run.noConfusion h
    | exact SetupRes.noConfusion (Run.ok.inj h)

/-- Inversion of a proceeding prologue: the repo directory, snapshots
directory, and commit hash returned come from the resolved info of the
returned repo state. -/
theorem downloadFilesSetup_proceed (env : DlEnv) (fs : FS) (r : Repo)
    (files : List String) (fs1 : FS) (r1 : Repo) (repoDir snapDir commitHash : String)
    (h : downloadFilesSetup env fs r files
      = Run.ok (SetupRes.proceed fs1 r1 repoDir snapDir commitHash)) :
    repoDir = repoCacheDirPath r
    ∧ ∃ info0, r1.info = some info0 ∧ commitHash = info0.commitHash
      ∧ snapDir = goJoinList [repoCacheDirPath r, "snapshots", info0.commitHash] := by
  unfold downloadFilesSetup at h
  split at h
  · exact SetupRes.noConfusion (Run.ok.inj h)
  · split at h
    · exact SetupRes.noConfusion (Run.ok.inj h)
    · rename_i cacheDir hcd
      have hceq : cacheDir = repoCacheDirPath r := repoCacheDir_ok_eq env r cacheDir hcd
      subst hceq
      split at h
      · exact Run.noConfusion h
      · exact SetupRes.noConfusion (Run.ok.inj h)
      · split at h
        · exact Run.noConfusion h
        · rename_i info0 hinfo
          split at h
          · have hinj := SetupRes.proceed.inj (Run.ok.inj h)
            obtain ⟨hf, hr, hrd, hsd, hc⟩ := hinj
            subst hr
            exact ⟨hrd.symm, info0, hinfo, hc.symm, hsd.symm⟩
          · exact SetupRes.noConfusion (Run.ok.inj h)

/-- C7: on success, `DownloadFiles` returns exactly one resolved local path
per requested name, in the same order as the input: the result list is the
input list mapped to its snapshot paths (snapshots directory of the resolved
commit joined with the sanitized relative name). -/
theorem downloadFiles_preserves_input_order (env : DlEnv) (fs : FS) (r : Repo)
    (files : List String) (bres : BatchResult) (ps : List String)
    (h : downloadFiles env fs r files = Run.ok bres)
    (hres : bres.result = Except.ok ps) :
    ps.length = files.length
    ∧ ∀ info, bres.repo.info = some info →
        ps = files.map (fun n => goJoin2
          (goJoinList [repoCacheDirPath r, "snapshots", info.commitHash])
          (cleanRelativeFilePathS n)) := by
  unfold downloadFiles at h
  split at h
  · exact Run.noConfusion h
  · rename_i hsetup
    cases h
    have hfiles := downloadFilesSetup_earlyEmpty env fs r files hsetup
    subst hfiles
    have hps : ps = [] := (Except.ok.inj hres).symm
    subst hps
    exact ⟨rfl, fun info _ => rfl⟩
  · cases h
    exact absurd hres (fun hx => Except.noConfusion hx)
  · rename_i fs1 r1 repoDir snapDir commitHash hsetup
    split at h
    · exact Run.noConfusion h
    · rename_i fs2 effs res hloop
      cases h
      simp only at hres
      subst hres
      obtain ⟨hrd, info0, hinfo, hc, hsd⟩ :=
        downloadFilesSetup_proceed env fs r files fs1 r1 repoDir snapDir
          commitHash hsetup
      have hmap := dlLoop_ok_paths env r1 repoDir snapDir commitHash files
        fs1 fs2 effs ps hloop
      constructor
      · rw [hmap, List.length_map]
      · intro info hinfoeq
        have h5 : some info0 = some info := by
          rw [← hinfo]
          exact hinfoeq
        have hie : info0 = info := Option.some.inj h5
        subst hie
        rw [hmap, hsd]

/-- A probe with an empty content tag or a mismatching canonical location
makes the per-file step fail without performing a body transfer. -/
theorem dlStep_bad_probe (env : DlEnv) (fs : FS) (r : Repo)
    (repoDir snapDir commitHash f : String)
    (hdr : List (String × String)) (cl : Int)
    (hsnap : fileExistsRun env fs (goJoin2 snapDir (cleanRelativeFilePathS f))
      = Run.ok false)
    (hhdr : env.fetchHeader (fileURLOf r commitHash f) = some (hdr, cl))
    (hbad : (extractFileMetadata hdr (fileURLOf r commitHash f) cl).etag = ""
        ∨ (extractFileMetadata hdr (fileURLOf r commitHash f) cl).location
            ≠ fileURLOf r commitHash f) :
    ∃ fs' effs e, dlStep env fs r repoDir snapDir commitHash f
        = Run.ok (fs', effs, Except.error e)
      ∧ Effect.transferE (fileURLOf r commitHash f) ∉ effs := by
  by_cases hdot : cleanRelativeFilePathS f = "."
  · refine ⟨fs, [], DlError.invalidFileName f, ?_, by simp⟩
    unfold dlStep
    rw [if_pos hdot]
  · by_cases hmk : env.mkdirOk
        (goPathSplitDirS (goJoin2 snapDir (cleanRelativeFilePathS f))) = true
    · by_cases hetag0 : (extractFileMetadata hdr
          (fileURLOf r commitHash f) cl).etag = ""
      · refine ⟨fs, [Effect.mkdirE (goPathSplitDirS
            (goJoin2 snapDir (cleanRelativeFilePathS f)))],
          DlError.noETag f, ?_, by simp⟩
        simp [dlStep, dlWorker, hdot, hsnap, hmk, hhdr, hetag0]
      · have hloc : (extractFileMetadata hdr (fileURLOf r commitHash f) cl).location
            ≠ fileURLOf r commitHash f := hbad.resolve_left hetag0
        refine ⟨fs, [Effect.mkdirE (goPathSplitDirS
            (goJoin2 snapDir (cleanRelativeFilePathS f)))],
          DlError.redirectMismatch f, ?_, by simp⟩
        simp [dlStep, dlWorker, hdot, hsnap, hmk, hhdr, hetag0, hloc]
    · refine ⟨fs, [Effect.mkdirE (goPathSplitDirS
          (goJoin2 snapDir (cleanRelativeFilePathS f)))],
        DlError.mkdirFailed (goJoin2 snapDir (cleanRelativeFilePathS f)),
        ?_, by simp⟩
      simp [dlStep, hdot, hsnap, hmk]

/-- The loop on `pre ++ rest`, when `pre` succeeds and `rest` then fails,
fails with the error of `rest` and the concatenated effect trace. -/
theorem dlLoop_append_error (env : DlEnv) (r : Repo)
    (repoDir snapDir commitHash : String) :
    ∀ (pre rest : List String) (fs fs1 fs2 : FS) (effs effs2 : List Effect)
      (ps : List String) (e : DlError),
      dlLoop env r repoDir snapDir commitHash fs pre
        = Run.ok (fs1, effs, Except.ok ps) →
      dlLoop env r repoDir snapDir commitHash fs1 rest
        = Run.ok (fs2, effs2, Except.error e) →
      dlLoop env r repoDir snapDir commitHash fs (pre ++ rest)
        = Run.ok (fs2, effs ++ effs2, Except.error e) := by
  intro pre
  induction pre with
  | nil =>
    intro rest fs fs1 fs2 effs effs2 ps e h1 h2
    unfold dlLoop at h1
    simp only [Run.ok.injEq, Prod.mk.injEq] at h1
    obtain ⟨ha, hb, hc⟩ := h1
    subst ha
    subst hb
    simpa using h2
  | cons name pre' ih =>
    intro rest fs fs1 fs2 effs effs2 ps e h1 h2
    rw [List.cons_append]
    unfold dlLoop at h1
    split at h1
    · exact Run.noConfusion h1
    · simp only [Run.ok.injEq, Prod.mk.injEq] at h1
      exact Except.noConfusion h1.2.2
    · rename_i fsa effsa p hstep
      split at h1
      · exact Run.noConfusion h1
      · simp only [Run.ok.injEq, Prod.mk.injEq] at h1
        exact Except.noConfusion h1.2.2
      · rename_i fsb effsb psb hloopb
        simp only [Run.ok.injEq, Prod.mk.injEq] at h1
        obtain ⟨ha, hb, hc⟩ := h1
        subst ha
        have hrec := ih rest fsa fsb fs2 effsb effs2 psb e hloopb h2
        unfold dlLoop
        simp only [hstep, hrec]
        rw [← hb, List.append_assoc]

/-- C6: for a requested file whose snapshot path does not already exist when
its worker runs, a probe yielding an empty content tag, or a canonical
location differing from the requested URL, makes `DownloadFiles` fail the
whole batch, and no body transfer is performed for that file. -/
theorem downloadFiles_bad_probe_fails_batch (env : DlEnv) (fs : FS) (r : Repo)
    (pre post : List String) (f : String) (fs1 : FS) (r1 : Repo)
    (repoDir snapDir commitHash : String) (fs2 : FS) (effs : List Effect)
    (ps : List String) (hdr : List (String × String)) (cl : Int)
    (hsetup : downloadFilesSetup env fs r (pre ++ f :: post)
      = Run.ok (SetupRes.proceed fs1 r1 repoDir snapDir commitHash))
    (hpre : dlLoop env r1 repoDir snapDir commitHash fs1 pre
      = Run.ok (fs2, effs, Except.ok ps))
    (hsnap : fileExistsRun env fs2 (goJoin2 snapDir (cleanRelativeFilePathS f))
      = Run.ok false)
    (hhdr : env.fetchHeader (fileURLOf r1 commitHash f) = some (hdr, cl))
    (hbad : (extractFileMetadata hdr (fileURLOf r1 commitHash f) cl).etag = ""
        ∨ (extractFileMetadata hdr (fileURLOf r1 commitHash f) cl).location
            ≠ fileURLOf r1 commitHash f) :
    ∃ fs3 effsF e,
      dlStep env fs2 r1 repoDir snapDir commitHash f
        = Run.ok (fs3, effsF, Except.error e)
      ∧ Effect.transferE (fileURLOf r1 commitHash f) ∉ effsF
      ∧ ∃ bres, downloadFiles env fs r (pre ++ f :: post) = Run.ok bres
          ∧ bres.result = Except.error e := by
  obtain ⟨fs3, effsF, e, hstep, hnot⟩ :=
    dlStep_bad_probe env fs2 r1 repoDir snapDir commitHash f hdr cl
      hsnap hhdr hbad
  have hrest : dlLoop env r1 repoDir snapDir commitHash fs2 (f :: post)
      = Run.ok (fs3, effsF, Except.error e) := by
    unfold dlLoop
    simp only [hstep]
  have hloop := dlLoop_append_error env r1 repoDir snapDir commitHash
    pre (f :: post) fs1 fs2 fs3 effs effsF ps e hpre hrest
  refine ⟨fs3, effsF, e, hstep, hnot,
    ⟨fs3, r1, effs ++ effsF, Except.error e⟩, ?_, rfl⟩
  unfold downloadFiles
  simp only [hsetup, hloop]

/-! ## `fileExists` stat-failure theorems -/

/-- C10: `fileExists` returns true exactly when stat succeeds and false
exactly when the path does not exist, and panics on any other stat error;
consequently the public operations calling it can terminate by panic rather
than by returning an error: `lockedDownload` panics when the stat of its
destination fails hard, and `DownloadFiles` panics when the stat of a
snapshot path fails hard. -/
theorem fileExists_panics_on_hard_stat_error (env : DlEnv) (fs : FS)
    (p url : String) (force : Bool) (r : Repo) (f : String) (rest : List String)
    (fs1 : FS) (r1 : Repo) (repoDir snapDir commitHash : String)
    (hstat : env.statHardErr p = true)
    (hsetup : downloadFilesSetup env fs r (f :: rest)
      = Run.ok (SetupRes.proceed fs1 r1 repoDir snapDir commitHash))
    (hname : cleanRelativeFilePathS f ≠ ".")
    (hsnap : env.statHardErr (goJoin2 snapDir (cleanRelativeFilePathS f)) = true) :
    (∀ s, fileExistsGo s = Run.panicked ↔ s = StatResult.statOtherErr)
    ∧ fileExistsGo StatResult.statOk = Run.ok true
    ∧ fileExistsGo StatResult.statNotExist = Run.ok false
    ∧ (∀ q, fileExistsRun env fs q = fileExistsGo (statOf env fs q))
    ∧ lockedDownload env fs url p force = Run.panicked
    ∧ downloadFiles env fs r (f :: rest) = Run.panicked := by
  refine ⟨?_, rfl, rfl, ?_, ?_, ?_⟩
  · intro s
    cases s <;> simp [fileExistsGo]
  · intro q
    by_cases hq : env.statHardErr q = true
    · simp [fileExistsRun, statOf, fileExistsGo, hq]
    · cases hex : (fs q).isSome <;>
        simp [fileExistsRun, statOf, fileExistsGo, fileExistsPure, hq, hex]
  · unfold lockedDownload fileExistsRun
    rw [if_pos hstat]
  · have hstep : dlStep env fs1 r1 repoDir snapDir commitHash f
        = Run.panicked := by
      unfold dlStep fileExistsRun
      rw [if_neg hname, if_pos hsnap]
    have hloop : dlLoop env r1 repoDir snapDir commitHash fs1 (f :: rest)
        = Run.panicked := by
      unfold dlLoop
      simp only [hstep]
    unfold downloadFiles
    simp only [hsetup, hloop]

/-! ## Concrete witnesses for the batch theorems -/

/-- Witness for `downloadInfo_error_preserves_cached_info`: the cached
short-circuit path. -/
theorem downloadInfo_error_preserves_cached_info_witness :
    (downloadInfo envAllOk (fun _ => none) sampleRepoCached false
      = Run.ok ((fun _ => none : FS), sampleRepoCached, (none : Option DlError)))
    ∧ (((none : Option DlError).isSome = true → sampleRepoCached = sampleRepoCached)
       ∧ ((none : Option DlError) = none → sampleRepoCached = sampleRepoCached
          ∨ ∃ contents newInfo,
              (fun _ => none : FS) (infoFilePathOf sampleRepoCached) = some contents
              ∧ envAllOk.parseInfo contents = some newInfo
              ∧ sampleRepoCached = { sampleRepoCached with info := some newInfo })) :=
  ⟨rfl, downloadInfo_error_preserves_cached_info envAllOk (fun _ => none)
    sampleRepoCached false (fun _ => none) sampleRepoCached none rfl⟩

/-- Witness for `downloadFiles_preserves_input_order`: one file, all
operations succeeding. -/
theorem downloadFiles_preserves_input_order_witness :
    (downloadFiles envAllOk (fun _ => none) sampleRepoCached ["a.txt"]
      = Run.ok c7bres)
    ∧ (c7bres.result = Except.ok
        [goJoin2 (goJoinList [repoCacheDirPath sampleRepoCached, "snapshots",
            sampleInfo.commitHash]) (cleanRelativeFilePathS "a.txt")])
    ∧ (([goJoin2 (goJoinList [repoCacheDirPath sampleRepoCached, "snapshots",
            sampleInfo.commitHash]) (cleanRelativeFilePathS "a.txt")].length
          = (["a.txt"] : List String).length
       ∧ ∀ info, c7bres.repo.info = some info →
          [goJoin2 (goJoinList [repoCacheDirPath sampleRepoCached, "snapshots",
              sampleInfo.commitHash]) (cleanRelativeFilePathS "a.txt")]
            = (["a.txt"] : List String).map (fun n => goJoin2
              (goJoinList [repoCacheDirPath sampleRepoCached, "snapshots",
                info.commitHash])
              (cleanRelativeFilePathS n)))) :=
  ⟨rfl, rfl, downloadFiles_preserves_input_order envAllOk (fun _ => none)
    sampleRepoCached ["a.txt"] c7bres
    [goJoin2 (goJoinList [repoCacheDirPath sampleRepoCached, "snapshots",
        sampleInfo.commitHash]) (cleanRelativeFilePathS "a.txt")] rfl rfl⟩

/-- Witness for `downloadFiles_bad_probe_fails_batch`: a probe answering with
no headers at all, hence an empty content tag. -/
theorem downloadFiles_bad_probe_fails_batch_witness :
    (downloadFilesSetup envNoETag (fun _ => none) sampleRepoCached
        ([] ++ "a.txt" :: [])
      = Run.ok (SetupRes.proceed (fun _ => none) sampleRepoCached
          (repoCacheDirPath sampleRepoCached)
          (goJoinList [repoCacheDirPath sampleRepoCached, "snapshots",
            sampleInfo.commitHash])
          sampleInfo.commitHash))
    ∧ (dlLoop envNoETag sampleRepoCached (repoCacheDirPath sampleRepoCached)
        (goJoinList [repoCacheDirPath sampleRepoCached, "snapshots",
          sampleInfo.commitHash]) sampleInfo.commitHash (fun _ => none) []
      = Run.ok ((fun _ => none : FS), [], Except.ok []))
    ∧ (fileExistsRun envNoETag (fun _ => none)
        (goJoin2 (goJoinList [repoCacheDirPath sampleRepoCached, "snapshots",
          sampleInfo.commitHash]) (cleanRelativeFilePathS "a.txt"))
      = Run.ok false)
    ∧ (envNoETag.fetchHeader (fileURLOf sampleRepoCached sampleInfo.commitHash
        "a.txt") = some ([], 0))
    ∧ ((extractFileMetadata [] (fileURLOf sampleRepoCached sampleInfo.commitHash
        "a.txt") 0).etag = "")
    ∧ (∃ fs3 effsF e,
        dlStep envNoETag (fun _ => none) sampleRepoCached
          (repoCacheDirPath sampleRepoCached)
          (goJoinList [repoCacheDirPath sampleRepoCached, "snapshots",
            sampleInfo.commitHash]) sampleInfo.commitHash "a.txt"
          = Run.ok (fs3, effsF, Except.error e)
        ∧ Effect.transferE (fileURLOf sampleRepoCached sampleInfo.commitHash
            "a.txt") ∉ effsF
        ∧ ∃ bres, downloadFiles envNoETag (fun _ => none) sampleRepoCached
              ([] ++ "a.txt" :: []) = Run.ok bres
            ∧ bres.result = Except.error e) :=
  ⟨rfl, rfl, rfl, rfl, rfl,
    downloadFiles_bad_probe_fails_batch envNoETag (fun _ => none)
      sampleRepoCached [] [] "a.txt" (fun _ => none) sampleRepoCached
      (repoCacheDirPath sampleRepoCached)
      (goJoinList [repoCacheDirPath sampleRepoCached, "snapshots",
        sampleInfo.commitHash]) sampleInfo.commitHash (fun _ => none) [] []
      [] 0 rfl rfl rfl rfl (Or.inl rfl)⟩

/-- Witness for `fileExists_panics_on_hard_stat_error`: every stat fails
hard. -/
theorem fileExists_panics_on_hard_stat_error_witness :
    (envStatErr.statHardErr "p" = true)
    ∧ (downloadFilesSetup envStatErr (fun _ => none) sampleRepoCached
          ("a.txt" :: [])
        = Run.ok (SetupRes.proceed (fun _ => none) sampleRepoCached
            (repoCacheDirPath sampleRepoCached)
            (goJoinList [repoCacheDirPath sampleRepoCached, "snapshots",
              sampleInfo.commitHash])
            sampleInfo.commitHash))
    ∧ (cleanRelativeFilePathS "a.txt" ≠ ".")
    ∧ (envStatErr.statHardErr
        (goJoin2 (goJoinList [repoCacheDirPath sampleRepoCached, "snapshots",
          sampleInfo.commitHash]) (cleanRelativeFilePathS "a.txt")) = true)
    ∧ ((∀ s, fileExistsGo s = Run.panicked ↔ s = StatResult.statOtherErr)
       ∧ fileExistsGo StatResult.statOk = Run.ok true
       ∧ fileExistsGo StatResult.statNotExist = Run.ok false
       ∧ (∀ q, fileExistsRun envStatErr (fun _ => none) q
            = fileExistsGo (statOf envStatErr (fun _ => none) q))
       ∧ lockedDownload envStatErr (fun _ => none) "u" "p" false = Run.panicked
       ∧ downloadFiles envStatErr (fun _ => none) sampleRepoCached
           ("a.txt" :: []) = Run.panicked) :=
  ⟨rfl, rfl, by decide, rfl,
    fileExists_panics_on_hard_stat_error envStatErr (fun _ => none) "p" "u"
      false sampleRepoCached "a.txt" [] (fun _ => none) sampleRepoCached
      (repoCacheDirPath sampleRepoCached)
      (goJoinList [repoCacheDirPath sampleRepoCached, "snapshots",
        sampleInfo.commitHash]) sampleInfo.commitHash rfl rfl (by decide) rfl⟩

end GoHuggingface
